import Mathlib

/-!
Shallow embedding of the list-expression evaluation engine of
`crates/polars-lazy/src/dsl/list.rs`: the strategy dispatcher (`eval`), the
three execution back-ends (`run_elementwise_on_values`, `run_on_group_by_engine`,
`run_per_sublist`) and the groups builder (`offsets_to_groups`).

Modelling conventions:
* machine integers are `Nat`/`Int`; `IdxSize` is `u32` (the default build), and
  Rust `as` casts are explicit truncations;
* a list column is modelled logically: per chunk, a list of rows, each row a
  pair of its outer-validity bit and its physical elements (elements are
  `Option` values, `none` being an inner null).  Null rows keep their physical
  element range, as in arrow;
* the external collaborators (prepared-expression evaluation, the group-by
  engine, the dtype inference) are parameters collected in `Ctx`;
* fallible Rust code returns `Except`; Rust panics are modelled by explicit
  `panic`-like error values, never silently absorbed.
-/

namespace PolarsListEval

/-- Maximum value of the engine's row-index integer `IdxSize` (`u32` in the
default build). -/
def IdxSizeMAX : Nat := 2 ^ 32 - 1

/-- Dtypes are opaque to this core; an abstract identifier suffices. -/
abbrev DType := Nat

/-- A `(name, dtype)` field, as in `polars_core::prelude::Field`. -/
structure Field where
  name : String
  dtype : DType
deriving DecidableEq

/-- Truncating cast of an `i64` value to `IdxSize` (`u32`), as Rust `as`. -/
def u32cast (x : Int) : Nat := (x % (2 ^ 32 : Int)).toNat

/-- The mapped iterator body of `offsets_to_groups`: starting from `start`,
for each subsequent offset `e` emit `[offset, len] = [start as IdxSize,
(e - start) as IdxSize]` and advance `start := e`. -/
def groupsOf : Int → List Int → List (Nat × Nat)
  | _, [] => []
  | start, e :: rest => (u32cast start, u32cast (e - start)) :: groupsOf e rest

/-- Embedding of `offsets_to_groups` (list.rs:26).  `Except.error ()` models
the panic of `offsets[0]` / `offsets.last().unwrap()` on an empty slice;
`Except.ok none` models returning `None` when `end - start` is not
representable in `IdxSize` (`IdxSize::try_from` fails for negative values and
for values above `IdxSize::MAX`). -/
def offsets_to_groups (offsets : List Int) : Except Unit (Option (List (Nat × Nat))) :=
  match offsets with
  | [] => Except.error ()
  | o :: rest =>
    let endv := (o :: rest).getLast (List.cons_ne_nil o rest)
    if endv - o < 0 ∨ (IdxSizeMAX : Int) < endv - o then Except.ok none
    else Except.ok (some (groupsOf o rest))

/-- One row of a list column: its outer-validity bit (`true` = non-null row)
and its physical elements (`none` = inner null element). -/
abbrev Row (α : Type) := Bool × List (Option α)

/-- A `ListChunked`: a named, typed list column split into storage chunks. -/
structure ListChunked (α : Type) where
  name : String
  dtype : DType
  chunks : List (List (Row α))
deriving DecidableEq

/-- All logical rows of the column, across chunks, in order. -/
def ListChunked.rows {α : Type} (lst : ListChunked α) : List (Row α) :=
  lst.chunks.flatten

/-- Row count (`ChunkedArray::len`). -/
def ListChunked.len {α : Type} (lst : ListChunked α) : Nat :=
  lst.rows.length

/-- Outer null-row count (`ChunkedArray::null_count`): inner element nulls are
not counted. -/
def ListChunked.nullCount {α : Type} (lst : ListChunked α) : Nat :=
  (lst.rows.filter (fun r => !r.1)).length

/-- Embedding of `ChunkedArray::has_nulls`: `null_count > 0`. -/
def ListChunked.hasNulls {α : Type} (lst : ListChunked α) : Bool :=
  lst.nullCount != 0

/-- Modelled from the spec: `get_values_size` (the `ValueSize` impl lives in
the arrow crate, outside `src/`) is "the total element count across all
rows". -/
def ListChunked.getValuesSize {α : Type} (lst : ListChunked α) : Nat :=
  (lst.rows.map (fun r => r.2.length)).sum

/-- Count of null elements inside the rows (the inner validity), across all
rows.  This is what claim C1's "null elements" refers to; it is distinct from
`nullCount`. -/
def ListChunked.innerNullCount {α : Type} (lst : ListChunked α) : Nat :=
  ((lst.rows.map (fun r => r.2.filter Option.isNone)).flatten).length

/-- Row-boundary offsets of the rows starting at offset `s`: one offset per
row boundary, length `rows + 1`. -/
def offsetsFrom {α : Type} (s : Int) : List (Row α) → List Int
  | [] => [s]
  | r :: rest => s :: offsetsFrom (s + r.2.length) rest

/-- Offsets of the single chunk obtained by `lst.rechunk()`: contiguous,
starting at `0` (this is what `arr.offsets()` yields in
`run_on_group_by_engine` after the rechunk). -/
def ListChunked.rechunkOffsets {α : Type} (lst : ListChunked α) : List Int :=
  offsetsFrom 0 lst.rows

/-- The expression nodes observed by `expr.into_iter()` in `eval`, restricted
to the shapes the dispatcher matches on. -/
inductive ExprNode where
  | castCategorical
  | castOther
  | column (name : String)
  | anonymousFunction (fmtStr : String)
  | other
deriving DecidableEq

/-- The `polars_plan::constants::MAP_LIST_NAME` marker of opaque user `map`
functions (its concrete text is immaterial to this model). -/
def MAP_LIST_NAME : String := "map_list"

/-- The pushdown classification `ExprPushdownGroup` of an expression. -/
inductive ExprPushdownGroup where
  | pushable
  | fallible
  | barrier
deriving DecidableEq

/-- Errors of the modelled engine: the two eager configuration errors raised
by the dispatcher's pre-checks, an inner evaluation error `e : E`, and a
modelled Rust panic. -/
inductive PError (E : Type) where
  | castCategoricalNotAllowed
  | namedColumnsNotAllowed
  | evalE (e : E)
  | panic
deriving DecidableEq

/-- Result of the group-by engine's `evaluate_on_groups` as matched by
`run_on_group_by_engine`: either one aggregated scalar per group or an
already-aggregated list per group. -/
inductive AggState (β : Type) where
  | aggregatedScalar (vals : List (Option β))
  | aggregatedOther (rows : List (Option (List (Option β))))
deriving DecidableEq

/-- Result columns of the dispatcher, kept symbolic where they are built by
external collaborators: `empty` is `Column::new_empty`, `casted` is
`c.cast(dtype)` of the whole input column, `fromList` is the per-sublist
collection renamed and cast to the output dtype, `fromAgg` is the group-by
engine's output renamed, `fromChunks` is the elementwise rebuild cast to the
output dtype. -/
inductive OutCol (α β : Type) where
  | empty (name : String) (dtype : DType)
  | casted (name : String) (src : ListChunked α) (dtype : DType)
  | fromList (name : String) (rows : List (Option (List (Option β)))) (dtype : DType)
  | fromAgg (name : String) (st : AggState β)
  | fromChunks (name : String) (chunks : List (List (Row β))) (dtype : DType)
deriving DecidableEq

/-- Name carried by a result column. -/
def OutCol.name {α β : Type} : OutCol α β → String
  | .empty n _ => n
  | .casted n _ _ => n
  | .fromList n _ _ => n
  | .fromAgg n _ => n
  | .fromChunks n _ _ => n

/-- The out-of-scope collaborators of one `eval` call: the outcome of
`prepare_expression_for_context`, the prepared expression's `evaluate` over a
flat values frame, its `evaluate_on_groups` under the aggregation context,
and the dtype effect of the expression used by `eval_field_to_dtype`. -/
structure Ctx (α β E : Type) where
  prepare : Except E Unit
  evalValues : List (Option α) → Except E (List (Option β))
  aggEval : List (Option α) → List (Nat × Nat) → Except E (AggState β)
  dtypeFn : DType → DType

/-- Modelled from the spec: `eval_field_to_dtype` (not under `src/`) derives
the output field from the input list's field — the name is kept, the dtype is
mapped by the expression's type effect (spec section 3, "Output Field"). -/
def evalFieldToDtype (f : Field) (dtypeFn : DType → DType) : Field :=
  { name := f.name, dtype := dtypeFn f.dtype }

/-- The sequential collection loop of `run_per_sublist` (list.rs:89-108):
null rows collect `none`; valid rows are evaluated, a failing row overwrites
the single error slot (`err = Some(e)`) and collects `none`; iteration never
stops early.  Returns the final error slot and the collected rows. -/
def perSublistLoop {α β E : Type} (ev : List (Option α) → Except E (List (Option β))) :
    Option E → List (Row α) → Option E × List (Option (List (Option β)))
  | err, [] => (err, [])
  | err, r :: rest =>
    if r.1 then
      match ev r.2 with
      | .ok out =>
        let p := perSublistLoop ev err rest
        (p.1, some out :: p.2)
      | .error e =>
        let p := perSublistLoop ev (some e) rest
        (p.1, none :: p.2)
    else
      let p := perSublistLoop ev err rest
      (p.1, none :: p.2)

/-- Embedding of `run_per_sublist` (list.rs:51).  The parallel branch differs
from the sequential one only in which of several concurrent errors wins the
mutex-protected slot (non-deterministic in Rust); this model keeps the
deterministic last-writer of the sequential loop for both.  On any captured
error the whole call fails; otherwise the collected rows are renamed to
`sName` and cast to the output dtype. -/
def run_per_sublist {α β E : Type} (sName : String) (lst : ListChunked α)
    (ctx : Ctx α β E) (parallel : Bool) (output_field : Field) :
    Except (PError E) (OutCol α β) :=
  match ctx.prepare with
  | .error e => Except.error (PError.evalE e)
  | .ok _ =>
    let _ := parallel
    let p := perSublistLoop ctx.evalValues none lst.rows
    match p.1 with
    | some e => Except.error (PError.evalE e)
    | none => Except.ok (OutCol.fromList sName p.2 output_field.dtype)

/-- Embedding of `run_on_group_by_engine` (list.rs:122): rechunk, build the
groups from the offsets (`.unwrap()` of a `None` result is a panic), flatten
the values, evaluate under the aggregation context, rename to `name`. -/
def run_on_group_by_engine {α β E : Type} (name : String) (lst : ListChunked α)
    (ctx : Ctx α β E) : Except (PError E) (OutCol α β) :=
  match offsets_to_groups lst.rechunkOffsets with
  | .error _ => Except.error PError.panic
  | .ok none => Except.error PError.panic
  | .ok (some groups) =>
    let values := (lst.rows.map (fun r => r.2)).flatten
    match ctx.prepare with
    | .error e => Except.error (PError.evalE e)
    | .ok _ =>
      match ctx.aggEval values groups with
      | .error e => Except.error (PError.evalE e)
      | .ok st => Except.ok (OutCol.fromAgg name st)

/-- Re-wrap freshly evaluated values with a chunk's original row boundaries
and validity (the `ListArray::new` with the old offsets and validity in
`apply_to_chunk`, list.rs:196-201). -/
def resplitRows {α β : Type} : List (Row α) → List (Option β) → List (Row β)
  | [], _ => []
  | r :: rest, vs => (r.1, vs.take r.2.length) :: resplitRows rest (vs.drop r.2.length)

/-- Embedding of `apply_to_chunk` (list.rs:180): flatten the chunk's values,
evaluate the expression once over them, re-wrap with the chunk's offsets and
validity. -/
def applyToChunk {α β E : Type} (ev : List (Option α) → Except E (List (Option β)))
    (chunk : List (Row α)) : Except E (List (Row β)) :=
  let values := (chunk.map (fun r => r.2)).flatten
  (ev values).map (fun newValues => resplitRows chunk newValues)

/-- Sequential `collect::<PolarsResult<Vec<_>>>` over the chunks: first error
aborts. -/
def mapChunks {α β E : Type} (f : List (Row α) → Except E (List (Row β))) :
    List (List (Row α)) → Except E (List (List (Row β)))
  | [] => Except.ok []
  | c :: rest =>
    match f c with
    | .error e => Except.error e
    | .ok c' =>
      match mapChunks f rest with
      | .error e => Except.error e
      | .ok rest' => Except.ok (c' :: rest')

/-- Embedding of `run_elementwise_on_values` (list.rs:154): empty-chunk fast
return, then per-chunk evaluation (the parallel branch only reorders
independent chunk work, results are assembled in chunk order either way),
finally `from_chunks` under the output field's name cast to the output
dtype. -/
def run_elementwise_on_values {α β E : Type} (lst : ListChunked α)
    (ctx : Ctx α β E) (parallel : Bool) (output_field : Field) :
    Except (PError E) (OutCol α β) :=
  if lst.chunks.isEmpty then
    Except.ok (OutCol.empty output_field.name output_field.dtype)
  else
    match ctx.prepare with
    | .error e => Except.error (PError.evalE e)
    | .ok _ =>
      let _ := parallel
      match mapChunks (applyToChunk ctx.evalValues) lst.chunks with
      | .error e => Except.error (PError.evalE e)
      | .ok chs => Except.ok (OutCol.fromChunks output_field.name chs output_field.dtype)

/-- The eager pre-checks of the dispatcher closure (list.rs:247-267), walked
over the expression nodes in iteration order: a cast to categorical/enum and
a reference to a named (non-empty-name) column are configuration errors. -/
def precheck {E : Type} : List ExprNode → Option (PError E)
  | [] => none
  | ExprNode.castCategorical :: _ => some PError.castCategoricalNotAllowed
  | ExprNode.column name :: rest =>
    if name = "" then precheck rest else some PError.namedColumnsNotAllowed
  | _ :: rest => precheck rest

/-- Embedding of `is_user_apply` (list.rs:287): any `Expr::AnonymousFunction`
whose `options.fmt_str` is `MAP_LIST_NAME`. -/
def isUserApply (nodes : List ExprNode) : Bool :=
  nodes.any fun n =>
    match n with
    | ExprNode.anonymousFunction fmtStr => fmtStr = MAP_LIST_NAME
    | _ => false

/-- The three execution strategies of the dispatcher. -/
inductive Strategy where
  | elementwise
  | groupAgg
  | perSublist
deriving DecidableEq

/-- The strategy three-way branch of the dispatcher (list.rs:291-302),
reached after the pre-checks and the two fast exits. -/
def chooseStrategy {α : Type} (pd_group : ExprPushdownGroup) (returns_scalar : Bool)
    (nodes : List ExprNode) (lst : ListChunked α) : Strategy :=
  if (match pd_group with
      | ExprPushdownGroup.pushable => true
      | ExprPushdownGroup.fallible => !lst.hasNulls
      | ExprPushdownGroup.barrier => false) && !returns_scalar
  then Strategy.elementwise
  else if lst.getValuesSize ≤ IdxSizeMAX ∧ lst.nullCount = 0 ∧ isUserApply nodes = false
  then Strategy.groupAgg
  else Strategy.perSublist

/-- Embedding of the dispatcher closure `func` inside `eval` (list.rs:246):
pre-checks, output-field inference, the two fast exits (empty column,
all-null column), then the strategy dispatch.  `pd_group` and
`returns_scalar` are the classification values computed once per expression
and closed over by the closure. -/
def eval_func {α β E : Type} (nodes : List ExprNode) (pd_group : ExprPushdownGroup)
    (returns_scalar : Bool) (ctx : Ctx α β E) (parallel : Bool) (c : ListChunked α) :
    Except (PError E) (OutCol α β) :=
  match precheck (E := E) nodes with
  | some e => Except.error e
  | none =>
    let lst := c
    let output_field := evalFieldToDtype { name := lst.name, dtype := lst.dtype } ctx.dtypeFn
    if lst.len = 0 then
      Except.ok (OutCol.empty c.name output_field.dtype)
    else if lst.nullCount = lst.len then
      Except.ok (OutCol.casted c.name c output_field.dtype)
    else
      match chooseStrategy pd_group returns_scalar nodes lst with
      | Strategy.elementwise => run_elementwise_on_values lst ctx parallel output_field
      | Strategy.groupAgg => run_on_group_by_engine c.name lst ctx
      | Strategy.perSublist => run_per_sublist c.name lst ctx parallel output_field

/-- Element counts per row. -/
def rowLens {α : Type} (rs : List (Row α)) : List Nat :=
  rs.map (fun r => r.2.length)

/-- Outer validity bits per row. -/
def rowValidity {α : Type} (rs : List (Row α)) : List Bool :=
  rs.map (fun r => r.1)

/-- Per-row element counts of a result column (meaningful for the list-shaped
results the elementwise strategy produces). -/
def OutCol.shapeRowLens {α β : Type} : OutCol α β → List Nat
  | .fromChunks _ chs _ => rowLens chs.flatten
  | _ => []

/-- Outer validity of a result column (meaningful for the list-shaped results
the elementwise strategy produces). -/
def OutCol.shapeValidity {α β : Type} : OutCol α β → List Bool
  | .fromChunks _ chs _ => rowValidity chs.flatten
  | _ => []

/-- The errors raised by valid rows under the per-sublist evaluation, in row
order. -/
def rowErrors {α β E : Type} (ev : List (Option α) → Except E (List (Option β)))
    (rs : List (Row α)) : List E :=
  rs.filterMap fun r =>
    if r.1 then
      match ev r.2 with
      | .error e => some e
      | .ok _ => none
    else none

/-- Spec-side groups builder, following claim C4's words verbatim: descriptor
`i` is `(offsets[i], offsets[i+1] - offsets[i])`, one per consecutive offset
pair.  To be compared against `offsets_to_groups`. -/
def specGroups (offsets : List Int) : List (Nat × Nat) :=
  (offsets.zip offsets.tail).map fun p => (p.1.toNat, (p.2 - p.1).toNat)

/-- Last element of a list when there is one, otherwise the default: the
value left in a single overwrite slot after a left-to-right walk. -/
def lastOr {γ : Type} (l : List γ) (d : Option γ) : Option γ :=
  match l.getLast? with
  | some x => some x
  | none => d

/-- A concrete context over integer elements whose expression is the
identity. -/
def ctxId : Ctx Int Int Nat :=
  { prepare := Except.ok ()
  , evalValues := fun vs => Except.ok vs
  , aggEval := fun _ _ => Except.ok (AggState.aggregatedScalar [])
  , dtypeFn := fun d => d }

/-- A concrete context whose expression fails on the row `[1]` with error `1`
and on the row `[2]` with error `2`. -/
def ctxErr : Ctx Int Int Nat :=
  { prepare := Except.ok ()
  , evalValues := fun vs =>
      if vs = [some 1] then Except.error 1
      else if vs = [some 2] then Except.error 2
      else Except.ok vs
  , aggEval := fun _ _ => Except.ok (AggState.aggregatedScalar [])
  , dtypeFn := fun d => d }

/-- The list column `[[1, null, 3]]`: one valid row containing an inner null
element. -/
def lstInnerNull : ListChunked Int := ⟨"x", 0, [[(true, [some 1, none, some 3])]]⟩

/-- The list column `[[1], [2]]`: two valid single-element rows. -/
def lstTwo : ListChunked Int := ⟨"x", 0, [[(true, [some 1]), (true, [some 2])]]⟩

/-- The list column `[[5]]`. -/
def lstW : ListChunked Int := ⟨"x", 0, [[(true, [some 5])]]⟩

/-- A list column with zero rows. -/
def lstEmpty : ListChunked Int := ⟨"x", 0, []⟩

/-- A non-empty list column whose single row is null. -/
def lstAllNull : ListChunked Int := ⟨"x", 0, [[(false, [])]]⟩

/-- A two-chunk list column `[[1, 2], null]` whose null row spans one
physical element. -/
def lstShape : ListChunked Int :=
  ⟨"x", 0, [[(true, [some 1, some 2])], [(false, [some 3])]]⟩

/-- A sample output field. -/
def fld0 : Field := ⟨"x", 0⟩

theorem offsetsFrom_ne_nil {α : Type} (s : Int) (rs : List (Row α)) :
    offsetsFrom s rs ≠ [] := by
  cases rs <;> simp [offsetsFrom]

theorem offsetsFrom_eq_cons {α : Type} (s : Int) (rs : List (Row α)) :
    ∃ t, offsetsFrom s rs = s :: t := by
  cases rs <;> exact ⟨_, rfl⟩

theorem offsetsFrom_getLast {α : Type} :
    ∀ (rs : List (Row α)) (s : Int),
      (offsetsFrom s rs).getLast (offsetsFrom_ne_nil s rs) =
        s + (((rs.map fun r => r.2.length).sum : Nat) : Int) := by
  intro rs
  induction rs with
  | nil =>
    intro s
    simp [offsetsFrom]
  | cons r rest ih =>
    intro s
    have h := List.getLast_cons (a := s) (offsetsFrom_ne_nil (s + r.2.length) rest)
    simp only [offsetsFrom]
    rw [h, ih]
    push_cast [List.map_cons, List.sum_cons]
    ring

theorem chain'_le_getLast (o : Int) (rest : List Int)
    (h : List.Chain' (fun a b => a ≤ b) (o :: rest)) :
    o ≤ (o :: rest).getLast (List.cons_ne_nil o rest) := by
  have hp := (List.chain'_iff_pairwise).mp h
  have hmem := List.getLast_mem (List.cons_ne_nil o rest)
  rcases List.pairwise_cons.mp hp with ⟨hall, _⟩
  rcases List.mem_cons.mp hmem with h1 | h2
  · rw [h1]
  · exact hall _ h2

theorem groupsOf_eq_spec :
    ∀ (rest : List Int) (o : Int),
      List.Chain' (fun a b => a ≤ b) (o :: rest) →
      (∀ x ∈ o :: rest, 0 ≤ x ∧ x ≤ (IdxSizeMAX : Int)) →
      groupsOf o rest = specGroups (o :: rest) := by
  intro rest
  induction rest with
  | nil =>
    intro o _ _
    simp [groupsOf, specGroups]
  | cons e rest ih =>
    intro o hch hrange
    have hMAX : (IdxSizeMAX : Int) = 2 ^ 32 - 1 := by norm_num [IdxSizeMAX]
    obtain ⟨hoe, hch'⟩ := List.chain'_cons.mp hch
    have ho := hrange o (by simp)
    have he := hrange e (by simp)
    have hcast1 : u32cast o = o.toNat := by
      unfold u32cast
      rw [Int.emod_eq_of_lt ho.1 (by omega)]
    have hcast2 : u32cast (e - o) = (e - o).toNat := by
      unfold u32cast
      rw [Int.emod_eq_of_lt (by omega) (by omega)]
    have hrest : ∀ x ∈ e :: rest, 0 ≤ x ∧ x ≤ (IdxSizeMAX : Int) := by
      intro x hx
      exact hrange x (List.mem_cons_of_mem o hx)
    calc groupsOf o (e :: rest)
        = (u32cast o, u32cast (e - o)) :: groupsOf e rest := rfl
      _ = (o.toNat, (e - o).toNat) :: specGroups (e :: rest) := by
          rw [hcast1, hcast2, ih e hch' hrest]
      _ = specGroups (o :: e :: rest) := by
          simp [specGroups]

/-- C4 (amended): for every non-empty, non-decreasing offsets sequence all of
whose entries are representable in the row-index integer width — hence
`last - first` is representable — `offsets_to_groups` returns exactly
`len(offsets) - 1` descriptors in original row order, descriptor `i` being
`(offsets[i], offsets[i+1] - offsets[i])`; and whenever `last - first` is not
representable in that width it returns no descriptors. -/
theorem offsets_to_groups_correct (o : Int) (rest : List Int) :
    (List.Chain' (fun a b => a ≤ b) (o :: rest) →
      (∀ x ∈ o :: rest, 0 ≤ x ∧ x ≤ (IdxSizeMAX : Int)) →
      offsets_to_groups (o :: rest) = Except.ok (some (specGroups (o :: rest))) ∧
        (specGroups (o :: rest)).length = rest.length) ∧
    ((o :: rest).getLast (List.cons_ne_nil o rest) - o < 0 ∨
        (IdxSizeMAX : Int) < (o :: rest).getLast (List.cons_ne_nil o rest) - o →
      offsets_to_groups (o :: rest) = Except.ok none) := by
  constructor
  · intro hch hrange
    have hlast := chain'_le_getLast o rest hch
    have hoR := hrange o (by simp)
    have hlastR := hrange _ (List.getLast_mem (List.cons_ne_nil o rest))
    constructor
    · simp only [offsets_to_groups]
      rw [if_neg (by omega)]
      rw [groupsOf_eq_spec rest o hch hrange]
    · simp [specGroups, List.length_zip]
  · intro hbig
    simp only [offsets_to_groups]
    rw [if_pos hbig]

/-- C4 counterexample: the claim as stated only assumes `last - first`
representable; for the offsets `[2^32, 2^32 + 1]` that difference is `1`, yet
the produced descriptor is `(0, 1)` — the `as IdxSize` cast of `offsets[0]`
wraps — while the claim's descriptor `(offsets[0], offsets[1] - offsets[0])`
would be `(2^32, 1)`. -/
theorem offsets_to_groups_cex :
    offsets_to_groups [2 ^ 32, 2 ^ 32 + 1] = Except.ok (some [(0, 1)]) ∧
      specGroups [2 ^ 32, 2 ^ 32 + 1] = [(2 ^ 32, 1)] ∧
      ((0 : Nat), (1 : Nat)) ≠ ((2 ^ 32 : Nat), (1 : Nat)) ∧
      ((2 ^ 32 + 1 : Int) - 2 ^ 32 = 1 ∧ (1 : Int) ≤ (IdxSizeMAX : Int)) := by
  refine ⟨?_, ?_, by norm_num, by norm_num [IdxSizeMAX]⟩
  · rfl
  · rfl

/-- Witness for C4's amended theorem: the in-range offsets `[0, 2, 5]`
produce the two spec descriptors, and the offsets `[0, 2^40]`, whose range
exceeds `IdxSize::MAX`, produce none. -/
theorem offsets_to_groups_correct_w :
    (offsets_to_groups [0, 2, 5] = Except.ok (some (specGroups [0, 2, 5])) ∧
        (specGroups [0, 2, 5]).length = 2) ∧
      offsets_to_groups [0, 2 ^ 40] = Except.ok none := by
  constructor
  · exact (offsets_to_groups_correct 0 [2, 5]).1
      (List.chain'_cons.mpr ⟨by norm_num,
        List.chain'_cons.mpr ⟨by norm_num, List.chain'_singleton 5⟩⟩)
      (by decide)
  · exact (offsets_to_groups_correct 0 [2 ^ 40]).2 (by decide)

theorem offsetsFrom_getLastOpt {α : Type} (rs : List (Row α)) (s : Int) :
    (offsetsFrom s rs).getLast? = some (s + (((rs.map fun r => r.2.length).sum : Nat) : Int)) := by
  rw [List.getLast?_eq_getLast _ (offsetsFrom_ne_nil s rs), offsetsFrom_getLast]

theorem offsets_to_groups_rechunk {α : Type} (lst : ListChunked α)
    (hfits : lst.getValuesSize ≤ IdxSizeMAX) :
    ∃ g, offsets_to_groups lst.rechunkOffsets = Except.ok (some g) := by
  obtain ⟨t, ht⟩ := offsetsFrom_eq_cons (α := α) 0 lst.rows
  have hopt : (0 :: t).getLast? = some ((lst.getValuesSize : Nat) : Int) := by
    rw [← ht, offsetsFrom_getLastOpt]
    simp [ListChunked.getValuesSize]
  have hlast : (0 :: t).getLast (List.cons_ne_nil 0 t) = ((lst.getValuesSize : Nat) : Int) := by
    have h2 := List.getLast?_eq_getLast (0 :: t) (List.cons_ne_nil 0 t)
    rw [hopt] at h2
    injection h2 with h3
    exact h3.symm
  rw [ListChunked.rechunkOffsets, ht]
  simp only [offsets_to_groups]
  rw [if_neg (by rw [hlast]; omega)]
  exact ⟨_, rfl⟩

/-- C9: the groups builder indexes `offsets[0]` and unwraps `offsets.last()`,
so an empty offsets slice panics, but for every non-empty slice it is
panic-free (it returns, with or without descriptors); and when the
dispatcher's guard `get_values_size <= IdxSize::MAX` holds, the `.unwrap()`
of its result inside `run_on_group_by_engine` cannot panic: the rechunked
offsets start at `0` and end at the total values size, so the builder
produces descriptors. -/
theorem groups_builder_safety {α β E : Type} :
    (∀ offsets : List Int, offsets ≠ [] → ∃ r, offsets_to_groups offsets = Except.ok r) ∧
    (∀ (name : String) (lst : ListChunked α) (ctx : Ctx α β E),
      lst.getValuesSize ≤ IdxSizeMAX →
        run_on_group_by_engine name lst ctx ≠ Except.error PError.panic) := by
  constructor
  · intro offsets h
    match offsets with
    | [] => exact absurd rfl h
    | o :: rest =>
      simp only [offsets_to_groups]
      split
      · exact ⟨_, rfl⟩
      · exact ⟨_, rfl⟩
  · intro name lst ctx hfits hcontra
    obtain ⟨g, hg⟩ := offsets_to_groups_rechunk lst hfits
    unfold run_on_group_by_engine at hcontra
    rw [hg] at hcontra
    dsimp only at hcontra
    split at hcontra
    · simp at hcontra
    · split at hcontra
      · simp at hcontra
      · simp at hcontra

/-- Witness for C9 at concrete inputs. -/
theorem groups_builder_safety_w :
    (∃ r, offsets_to_groups [0, 2, 5] = Except.ok r) ∧
      run_on_group_by_engine "x" lstW ctxId ≠ Except.error PError.panic := by
  constructor
  · exact (groups_builder_safety (α := Int) (β := Int) (E := Nat)).1 [0, 2, 5] (by simp)
  · exact (groups_builder_safety (α := Int) (β := Int) (E := Nat)).2 "x" lstW ctxId (by decide)

/-- C1 (amended): past the pre-checks and fast exits, the Elementwise
Strategy is chosen iff the classification is Pushable, or it is Fallible and
the list column has zero null rows — the outer validity; inner null elements
play no part — and the expression is not scalar-returning. -/
theorem chooseStrategy_elementwise_iff {α : Type} (pd_group : ExprPushdownGroup)
    (returns_scalar : Bool) (nodes : List ExprNode) (lst : ListChunked α) :
    chooseStrategy pd_group returns_scalar nodes lst = Strategy.elementwise ↔
      ((pd_group = ExprPushdownGroup.pushable ∨
          (pd_group = ExprPushdownGroup.fallible ∧ lst.nullCount = 0)) ∧
        returns_scalar = false) := by
  cases pd_group <;> cases returns_scalar <;>
    simp [chooseStrategy, ListChunked.hasNulls] <;>
    split <;> simp_all

/-- C1 counterexample: for the input `[[1, null, 3]]` — one valid row with a
null element — and a Fallible classification of a non-scalar expression, the
code does choose the Elementwise Strategy (`has_nulls` counts null rows, not
null elements), refuting the claimed iff with its "zero null elements"
condition. -/
theorem chooseStrategy_elementwise_cex :
    ¬ (chooseStrategy ExprPushdownGroup.fallible false [] lstInnerNull = Strategy.elementwise ↔
        ((ExprPushdownGroup.fallible = ExprPushdownGroup.pushable ∨
            (ExprPushdownGroup.fallible = ExprPushdownGroup.fallible ∧
              lstInnerNull.innerNullCount = 0)) ∧
          false = false)) := by
  decide

/-- C2: once the Elementwise Strategy is not chosen, the Group-Aggregation
Strategy is chosen iff the total element count fits `IdxSize`, the column has
zero null rows, and the expression is not an opaque user `map` function; in
particular it is never selected when the element count exceeds the index
width. -/
theorem chooseStrategy_groupAgg_iff {α : Type} (pd_group : ExprPushdownGroup)
    (returns_scalar : Bool) (nodes : List ExprNode) (lst : ListChunked α)
    (h : chooseStrategy pd_group returns_scalar nodes lst ≠ Strategy.elementwise) :
    chooseStrategy pd_group returns_scalar nodes lst = Strategy.groupAgg ↔
      (lst.getValuesSize ≤ IdxSizeMAX ∧ lst.nullCount = 0 ∧ isUserApply nodes = false) := by
  unfold chooseStrategy at h ⊢
  split at h
  · exact absurd rfl h
  · rename_i hc
    rw [if_neg hc]
    split
    · rename_i h2
      simp [h2]
    · rename_i h2
      simp [h2]

/-- Witness for C2 at a concrete input with a Barrier classification. -/
theorem chooseStrategy_groupAgg_iff_w :
    chooseStrategy ExprPushdownGroup.barrier false [] lstW = Strategy.groupAgg ↔
      (lstW.getValuesSize ≤ IdxSizeMAX ∧ lstW.nullCount = 0 ∧ isUserApply [] = false) :=
  chooseStrategy_groupAgg_iff ExprPushdownGroup.barrier false [] lstW (by decide)

theorem lastOr_nil {γ : Type} (d : Option γ) : lastOr [] d = d := rfl

theorem lastOr_cons {γ : Type} (a : γ) (l : List γ) (d : Option γ) :
    lastOr (a :: l) d = lastOr l (some a) := by
  cases l with
  | nil => rfl
  | cons b m =>
    simp only [lastOr, List.getLast?_cons_cons]
    cases hx : (b :: m).getLast? with
    | none =>
      rw [List.getLast?_eq_getLast (b :: m) (List.cons_ne_nil b m)] at hx
      exact Option.noConfusion hx
    | some x => rfl

theorem lastOr_eq_getLast_or_default {γ : Type} (l : List γ) (d : Option γ) :
    lastOr l d = match l.getLast? with
      | some x => some x
      | none => d := rfl

theorem perSublistLoop_fst {α β E : Type}
    (ev : List (Option α) → Except E (List (Option β))) :
    ∀ (rs : List (Row α)) (err0 : Option E),
      (perSublistLoop ev err0 rs).1 = lastOr (rowErrors ev rs) err0 := by
  intro rs
  induction rs with
  | nil =>
    intro err0
    rfl
  | cons r rest ih =>
    intro err0
    by_cases hv : r.1
    · cases hev : ev r.2 with
      | ok out =>
        simp only [perSublistLoop]
        rw [if_pos hv, hev]
        dsimp only
        rw [ih]
        have hre : rowErrors ev (r :: rest) = rowErrors ev rest := by
          simp [rowErrors, List.filterMap_cons, hv, hev]
        rw [hre]
      | error e =>
        simp only [perSublistLoop]
        rw [if_pos hv, hev]
        dsimp only
        rw [ih]
        have hre : rowErrors ev (r :: rest) = e :: rowErrors ev rest := by
          simp [rowErrors, List.filterMap_cons, hv, hev]
        rw [hre, lastOr_cons]
    · simp only [perSublistLoop]
      rw [if_neg hv]
      dsimp only
      rw [ih]
      have hre : rowErrors ev (r :: rest) = rowErrors ev rest := by
        simp [rowErrors, List.filterMap_cons, hv]
      rw [hre]

theorem perSublistLoop_len {α β E : Type}
    (ev : List (Option α) → Except E (List (Option β))) :
    ∀ (rs : List (Row α)) (err0 : Option E),
      (perSublistLoop ev err0 rs).2.length = rs.length := by
  intro rs
  induction rs with
  | nil =>
    intro err0
    rfl
  | cons r rest ih =>
    intro err0
    by_cases hv : r.1
    · cases hev : ev r.2 with
      | ok out => simp [perSublistLoop, hv, hev, ih]
      | error e => simp [perSublistLoop, hv, hev, ih]
    · simp [perSublistLoop, hv, ih]

/-- C3 (amended): with parallel not set, rows are evaluated strictly
sequentially in order, but an expression error does not short-circuit: every
row is still walked and collected (a failing or null row collects a missing
value), and when at least one row fails, the error `run_per_sublist` returns
is the last failing row's error, not the first one. -/
theorem run_per_sublist_error_semantics {α β E : Type} (sName : String)
    (lst : ListChunked α) (ctx : Ctx α β E) (parallel : Bool) (output_field : Field)
    (hprep : ctx.prepare = Except.ok ()) :
    (∀ e, (rowErrors ctx.evalValues lst.rows).getLast? = some e →
      run_per_sublist sName lst ctx parallel output_field =
        Except.error (PError.evalE e)) ∧
    ((rowErrors ctx.evalValues lst.rows).getLast? = none →
      ∃ res, run_per_sublist sName lst ctx parallel output_field =
          Except.ok (OutCol.fromList sName res output_field.dtype) ∧
        res.length = lst.len) := by
  have hfst := perSublistLoop_fst ctx.evalValues lst.rows none
  constructor
  · intro e hlaste
    unfold run_per_sublist
    rw [hprep]
    dsimp only
    rw [hfst, lastOr_eq_getLast_or_default, hlaste]
  · intro hnone
    unfold run_per_sublist
    rw [hprep]
    dsimp only
    rw [hfst, lastOr_eq_getLast_or_default, hnone]
    exact ⟨_, rfl, perSublistLoop_len ctx.evalValues lst.rows none⟩

/-- C3 counterexample: with the rows `[[1], [2]]` and an expression failing
on both (error `1` on the first row, error `2` on the second), the sequential
`run_per_sublist` returns the second row's error `2`: the first error did not
short-circuit, and the returned error is not the first failing row's. -/
theorem run_per_sublist_first_error_cex :
    run_per_sublist "x" lstTwo ctxErr false fld0 = Except.error (PError.evalE 2) ∧
      ctxErr.evalValues [some 1] = Except.error 1 ∧ (2 : Nat) ≠ 1 := by
  refine ⟨rfl, rfl, by decide⟩

/-- Witness for C3's amended theorem at the concrete two-row failing input. -/
theorem run_per_sublist_error_semantics_w :
    run_per_sublist "x" lstTwo ctxErr false fld0 = Except.error (PError.evalE 2) :=
  (run_per_sublist_error_semantics "x" lstTwo ctxErr false fld0 rfl).1 2 rfl

theorem resplitRows_validity {α β : Type} :
    ∀ (c : List (Row α)) (vs : List (Option β)),
      rowValidity (resplitRows c vs) = rowValidity c := by
  intro c
  induction c with
  | nil =>
    intro vs
    rfl
  | cons r rest ih =>
    intro vs
    simp only [resplitRows, rowValidity, List.map_cons]
    rw [show List.map (fun r => r.1) (resplitRows rest (vs.drop r.2.length)) =
      rowValidity (resplitRows rest (vs.drop r.2.length)) from rfl, ih]
    rfl

theorem resplitRows_lens {α β : Type} :
    ∀ (c : List (Row α)) (vs : List (Option β)),
      (rowLens c).sum ≤ vs.length →
      rowLens (resplitRows c vs) = rowLens c := by
  intro c
  induction c with
  | nil =>
    intro vs _
    rfl
  | cons r rest ih =>
    intro vs hle
    have hsum : r.2.length + (rowLens rest).sum ≤ vs.length := by
      simpa [rowLens] using hle
    simp only [resplitRows, rowLens, List.map_cons, List.length_take]
    rw [min_eq_left (by omega)]
    have h2 : (rowLens rest).sum ≤ (vs.drop r.2.length).length := by
      simp only [List.length_drop]
      omega
    have h3 := ih (vs.drop r.2.length) h2
    simp only [rowLens] at h3
    rw [h3]

theorem applyToChunk_shape {α β E : Type}
    (ev : List (Option α) → Except E (List (Option β)))
    (hev : ∀ vs r, ev vs = Except.ok r → r.length = vs.length)
    (c : List (Row α)) (c' : List (Row β))
    (h : applyToChunk ev c = Except.ok c') :
    rowLens c' = rowLens c ∧ rowValidity c' = rowValidity c := by
  unfold applyToChunk at h
  dsimp only at h
  cases hv : ev ((c.map (fun r => r.2)).flatten) with
  | error e =>
    rw [hv] at h
    exact absurd h (by simp [Except.map])
  | ok nv =>
    rw [hv] at h
    simp only [Except.map, Except.ok.injEq] at h
    have hlen := hev _ _ hv
    have hflat : ((c.map (fun r => r.2)).flatten).length = (rowLens c).sum := by
      rw [List.length_flatten, List.map_map]
      rfl
    subst h
    refine ⟨resplitRows_lens c nv ?_, resplitRows_validity c nv⟩
    rw [hlen, hflat]

theorem rowLens_append {α : Type} (a b : List (Row α)) :
    rowLens (a ++ b) = rowLens a ++ rowLens b :=
  List.map_append _ a b

theorem rowValidity_append {α : Type} (a b : List (Row α)) :
    rowValidity (a ++ b) = rowValidity a ++ rowValidity b :=
  List.map_append _ a b

theorem mapChunks_shape {α β E : Type}
    (ev : List (Option α) → Except E (List (Option β)))
    (hev : ∀ vs r, ev vs = Except.ok r → r.length = vs.length) :
    ∀ (cs : List (List (Row α))) (chs : List (List (Row β))),
      mapChunks (applyToChunk ev) cs = Except.ok chs →
      rowLens chs.flatten = rowLens cs.flatten ∧
        rowValidity chs.flatten = rowValidity cs.flatten := by
  intro cs
  induction cs with
  | nil =>
    intro chs h
    simp only [mapChunks, Except.ok.injEq] at h
    subst h
    exact ⟨rfl, rfl⟩
  | cons c rest ih =>
    intro chs h
    simp only [mapChunks] at h
    cases hc : applyToChunk ev c with
    | error e =>
      rw [hc] at h
      exact absurd h (by simp)
    | ok c' =>
      rw [hc] at h
      cases hrest : mapChunks (applyToChunk ev) rest with
      | error e =>
        rw [hrest] at h
        exact absurd h (by simp)
      | ok rest' =>
        rw [hrest] at h
        simp only [Except.ok.injEq] at h
        subst h
        obtain ⟨hl1, hv1⟩ := applyToChunk_shape ev hev c c' hc
        obtain ⟨hl2, hv2⟩ := ih rest' hrest
        constructor
        · simp only [List.flatten_cons, rowLens_append, hl1, hl2]
        · simp only [List.flatten_cons, rowValidity_append, hv1, hv2]

/-- C7: whenever the Elementwise Strategy succeeds, its output has the same
per-row element counts, the same outer null-row mask, and the same row count
as the input list column.  The hypothesis on the evaluator captures the
contract of expressions routed to this strategy: over a flat values frame
they return one value per input element (in Rust, a shorter result would make
`ListArray::new` panic rather than succeed). -/
theorem run_elementwise_shape {α β E : Type} (lst : ListChunked α)
    (ctx : Ctx α β E) (parallel : Bool) (output_field : Field) (out : OutCol α β)
    (hev : ∀ vs r, ctx.evalValues vs = Except.ok r → r.length = vs.length)
    (h : run_elementwise_on_values lst ctx parallel output_field = Except.ok out) :
    out.shapeRowLens = rowLens lst.rows ∧
      out.shapeValidity = rowValidity lst.rows ∧
      out.shapeRowLens.length = lst.len := by
  unfold run_elementwise_on_values at h
  split at h
  · rename_i hemp
    have hnil : lst.chunks = [] := List.isEmpty_iff.mp hemp
    simp only [Except.ok.injEq] at h
    subst h
    simp [OutCol.shapeRowLens, OutCol.shapeValidity, ListChunked.rows, ListChunked.len,
      hnil, rowLens, rowValidity]
  · split at h
    · exact absurd h (by simp)
    · split at h
      · exact absurd h (by simp)
      · rename_i chs hm
        simp only [Except.ok.injEq] at h
        subst h
        obtain ⟨hl, hv⟩ := mapChunks_shape ctx.evalValues hev lst.chunks chs hm
        refine ⟨hl, hv, ?_⟩
        rw [show (OutCol.fromChunks output_field.name chs output_field.dtype :
          OutCol α β).shapeRowLens = rowLens chs.flatten from rfl, hl]
        simp only [rowLens, List.length_map]
        rfl

/-- Witness for C7 at a concrete two-chunk input with a null row. -/
theorem run_elementwise_shape_w :
    (OutCol.fromChunks "x" [[(true, [some 1, some 2])], [(false, [some 3])]] 0 :
        OutCol Int Int).shapeRowLens = rowLens lstShape.rows ∧
      (OutCol.fromChunks "x" [[(true, [some 1, some 2])], [(false, [some 3])]] 0 :
          OutCol Int Int).shapeValidity = rowValidity lstShape.rows ∧
      (OutCol.fromChunks "x" [[(true, [some 1, some 2])], [(false, [some 3])]] 0 :
          OutCol Int Int).shapeRowLens.length = lstShape.len :=
  run_elementwise_shape lstShape ctxId false fld0 _
    (fun vs r hvr => by injection hvr with h2; rw [h2]) rfl

theorem precheck_bad {E : Type} :
    ∀ nodes : List ExprNode,
      (ExprNode.castCategorical ∈ nodes ∨
        ∃ nm, nm ≠ "" ∧ ExprNode.column nm ∈ nodes) →
      precheck (E := E) nodes = some PError.castCategoricalNotAllowed ∨
        precheck (E := E) nodes = some PError.namedColumnsNotAllowed := by
  intro nodes
  induction nodes with
  | nil =>
    rintro (h | ⟨nm, _, h⟩) <;> simp at h
  | cons hd tl ih =>
    intro h
    cases hd with
    | castCategorical =>
      left
      rfl
    | column nm =>
      by_cases hnm : nm = ""
      · subst hnm
        have htl : ExprNode.castCategorical ∈ tl ∨
            ∃ nm2, nm2 ≠ "" ∧ ExprNode.column nm2 ∈ tl := by
          rcases h with h | ⟨nm2, hne2, hmem2⟩
          · left
            rcases List.mem_cons.mp h with h1 | h1
            · exact absurd h1 (by simp)
            · exact h1
          · right
            refine ⟨nm2, hne2, ?_⟩
            rcases List.mem_cons.mp hmem2 with h1 | h1
            · rw [ExprNode.column.injEq] at h1
              exact absurd h1 hne2
            · exact h1
        simpa [precheck] using ih htl
      · right
        simp [precheck, hnm]
    | castOther =>
      have htl : ExprNode.castCategorical ∈ tl ∨
          ∃ nm2, nm2 ≠ "" ∧ ExprNode.column nm2 ∈ tl := by
        rcases h with h | ⟨nm2, hne2, hmem2⟩
        · left
          rcases List.mem_cons.mp h with h1 | h1
          · exact absurd h1 (by simp)
          · exact h1
        · right
          refine ⟨nm2, hne2, ?_⟩
          rcases List.mem_cons.mp hmem2 with h1 | h1
          · exact absurd h1 (by simp)
          · exact h1
      simpa [precheck] using ih htl
    | anonymousFunction s =>
      have htl : ExprNode.castCategorical ∈ tl ∨
          ∃ nm2, nm2 ≠ "" ∧ ExprNode.column nm2 ∈ tl := by
        rcases h with h | ⟨nm2, hne2, hmem2⟩
        · left
          rcases List.mem_cons.mp h with h1 | h1
          · exact absurd h1 (by simp)
          · exact h1
        · right
          refine ⟨nm2, hne2, ?_⟩
          rcases List.mem_cons.mp hmem2 with h1 | h1
          · exact absurd h1 (by simp)
          · exact h1
      simpa [precheck] using ih htl
    | other =>
      have htl : ExprNode.castCategorical ∈ tl ∨
          ∃ nm2, nm2 ≠ "" ∧ ExprNode.column nm2 ∈ tl := by
        rcases h with h | ⟨nm2, hne2, hmem2⟩
        · left
          rcases List.mem_cons.mp h with h1 | h1
          · exact absurd h1 (by simp)
          · exact h1
        · right
          refine ⟨nm2, hne2, ?_⟩
          rcases List.mem_cons.mp hmem2 with h1 | h1
          · exact absurd h1 (by simp)
          · exact h1
      simpa [precheck] using ih htl

/-- C8: for every expression containing a cast to a categorical or enum
target, and for every expression referencing a named column whose name is not
the empty current-element placeholder, `eval` fails with one of the two
eagerly-raised configuration errors — for every column, every evaluation
context and both parallel modes, so before any strategy can run and before
any expression evaluation can occur. -/
theorem eval_func_precheck_errors {α β E : Type} (nodes : List ExprNode)
    (pd_group : ExprPushdownGroup) (returns_scalar : Bool) (ctx : Ctx α β E)
    (parallel : Bool) (c : ListChunked α)
    (hbad : ExprNode.castCategorical ∈ nodes ∨
      ∃ nm, nm ≠ "" ∧ ExprNode.column nm ∈ nodes) :
    eval_func nodes pd_group returns_scalar ctx parallel c =
        Except.error PError.castCategoricalNotAllowed ∨
      eval_func nodes pd_group returns_scalar ctx parallel c =
        Except.error PError.namedColumnsNotAllowed := by
  rcases precheck_bad (E := E) nodes hbad with h | h
  · left
    unfold eval_func
    rw [h]
  · right
    unfold eval_func
    rw [h]

/-- Witness for C8 at the node list `[col("y")]`. -/
theorem eval_func_precheck_errors_w :
    eval_func [ExprNode.column "y"] ExprPushdownGroup.pushable false ctxId false lstW =
        Except.error PError.castCategoricalNotAllowed ∨
      eval_func [ExprNode.column "y"] ExprPushdownGroup.pushable false ctxId false lstW =
        Except.error PError.namedColumnsNotAllowed :=
  eval_func_precheck_errors [ExprNode.column "y"] ExprPushdownGroup.pushable false ctxId
    false lstW (Or.inr ⟨"y", by decide, by simp⟩)

/-- C5: for every list column with zero rows (and every expression passing
the pre-checks), `eval` returns the empty column of the inferred output dtype
under the input's name, immediately: the result is this constant for every
evaluation context, so no strategy runs and the inner expression is never
invoked. -/
theorem eval_func_empty_fast_exit {α β E : Type} (nodes : List ExprNode)
    (pd_group : ExprPushdownGroup) (returns_scalar : Bool) (ctx : Ctx α β E)
    (parallel : Bool) (c : ListChunked α)
    (hpre : precheck (E := E) nodes = none) (hempty : c.len = 0) :
    eval_func nodes pd_group returns_scalar ctx parallel c =
      Except.ok (OutCol.empty c.name (ctx.dtypeFn c.dtype)) := by
  unfold eval_func
  rw [hpre]
  dsimp only
  rw [if_pos hempty]
  rfl

/-- Witness for C5 at a zero-row column. -/
theorem eval_func_empty_fast_exit_w :
    eval_func [] ExprPushdownGroup.pushable false ctxId false lstEmpty =
      Except.ok (OutCol.empty "x" 0) :=
  eval_func_empty_fast_exit [] ExprPushdownGroup.pushable false ctxId false lstEmpty
    rfl rfl

/-- C6: for every non-empty list column all of whose rows are null (and every
expression passing the pre-checks), `eval` returns the input column cast
directly to the inferred output dtype, for every evaluation context — so the
inner expression is never evaluated. -/
theorem eval_func_all_null_fast_exit {α β E : Type} (nodes : List ExprNode)
    (pd_group : ExprPushdownGroup) (returns_scalar : Bool) (ctx : Ctx α β E)
    (parallel : Bool) (c : ListChunked α)
    (hpre : precheck (E := E) nodes = none) (hnonempty : c.len ≠ 0)
    (hnull : c.nullCount = c.len) :
    eval_func nodes pd_group returns_scalar ctx parallel c =
      Except.ok (OutCol.casted c.name c (ctx.dtypeFn c.dtype)) := by
  unfold eval_func
  rw [hpre]
  dsimp only
  rw [if_neg hnonempty, if_pos hnull]
  rfl

/-- Witness for C6 at a single-null-row column. -/
theorem eval_func_all_null_fast_exit_w :
    eval_func [] ExprPushdownGroup.pushable false ctxId false lstAllNull =
      Except.ok (OutCol.casted "x" lstAllNull 0) :=
  eval_func_all_null_fast_exit [] ExprPushdownGroup.pushable false ctxId false lstAllNull
    rfl (by decide) rfl

theorem run_per_sublist_name {α β E : Type} (sName : String) (lst : ListChunked α)
    (ctx : Ctx α β E) (parallel : Bool) (output_field : Field) (out : OutCol α β)
    (h : run_per_sublist sName lst ctx parallel output_field = Except.ok out) :
    out.name = sName := by
  unfold run_per_sublist at h
  split at h
  · exact absurd h (by simp)
  · dsimp only at h
    split at h
    · exact absurd h (by simp)
    · simp only [Except.ok.injEq] at h
      rw [← h]
      rfl

theorem run_on_group_by_engine_name {α β E : Type} (name : String)
    (lst : ListChunked α) (ctx : Ctx α β E) (out : OutCol α β)
    (h : run_on_group_by_engine name lst ctx = Except.ok out) :
    out.name = name := by
  unfold run_on_group_by_engine at h
  split at h
  · exact absurd h (by simp)
  · exact absurd h (by simp)
  · dsimp only at h
    split at h
    · exact absurd h (by simp)
    · split at h
      · exact absurd h (by simp)
      · simp only [Except.ok.injEq] at h
        rw [← h]
        rfl

theorem run_elementwise_name {α β E : Type} (lst : ListChunked α)
    (ctx : Ctx α β E) (parallel : Bool) (output_field : Field) (out : OutCol α β)
    (h : run_elementwise_on_values lst ctx parallel output_field = Except.ok out) :
    out.name = output_field.name := by
  unfold run_elementwise_on_values at h
  split at h
  · simp only [Except.ok.injEq] at h
    rw [← h]
    rfl
  · split at h
    · exact absurd h (by simp)
    · dsimp only at h
      split at h
      · exact absurd h (by simp)
      · simp only [Except.ok.injEq] at h
        rw [← h]
        rfl

/-- C10: on every successful path of the dispatcher — both fast exits and all
three strategies — the returned column carries the input column's name. -/
theorem eval_func_result_name {α β E : Type} (nodes : List ExprNode)
    (pd_group : ExprPushdownGroup) (returns_scalar : Bool) (ctx : Ctx α β E)
    (parallel : Bool) (c : ListChunked α) (out : OutCol α β)
    (h : eval_func nodes pd_group returns_scalar ctx parallel c = Except.ok out) :
    out.name = c.name := by
  unfold eval_func at h
  split at h
  · exact absurd h (by simp)
  · dsimp only at h
    split at h
    · simp only [Except.ok.injEq] at h
      rw [← h]
      rfl
    · split at h
      · simp only [Except.ok.injEq] at h
        rw [← h]
        rfl
      · split at h
        · exact run_elementwise_name _ _ _ _ _ h
        · exact run_on_group_by_engine_name _ _ _ _ h
        · exact run_per_sublist_name _ _ _ _ _ _ h

/-- Witness for C10 on a successful elementwise run. -/
theorem eval_func_result_name_w :
    (OutCol.fromChunks "x" [[(true, [some 5])]] 0 : OutCol Int Int).name = lstW.name :=
  eval_func_result_name [] ExprPushdownGroup.pushable false ctxId false lstW _ rfl

end PolarsListEval
